import Mathlib

/-!
Verification of `line_calc.go` (an interactive arbitrary-precision line
calculator).  The program preprocesses a line of text, parses it with Go's
expression parser (an external collaborator, modelled here at the AST level),
evaluates the tree over `math/big.Float` values at precision 128 with
round-to-nearest-even, and formats integer results in three bases.

`big.Float` values are modelled as exact rationals together with the two
infinities; every arithmetic operation applies `fround 128` (correct rounding
to 128 significant bits, ties to even), which is exactly the documented
`big.Float` contract for `Add`/`Sub`/`Mul`/`Quo`/`SetInt` at a fixed
precision.  `big.Float` has no NaN: operations that would produce one panic
(`ErrNaN`); panics are modelled as a distinct error constructor.
-/

attribute [local semireducible] Rat.add Rat.mul Rat.sub Rat.inv Rat.ofScientific

deriving instance DecidableEq for Except

namespace LineCalc

/-- Bit length of a natural number (`big.Int.BitLen` on the absolute value):
0 for 0, otherwise `⌊log2 n⌋ + 1`.  Fuel-based so that the kernel can
evaluate it on literals. -/
def bitlenAux : Nat → Nat → Nat
  | 0, _ => 0
  | fuel + 1, n => if n = 0 then 0 else bitlenAux fuel (n / 2) + 1

/-- Bit length entry point; the fuel `n` dominates the recursion depth. -/
def bitlen (n : Nat) : Nat := bitlenAux n n

/-- The rational `2^z` for a signed exponent `z`. -/
def qp2 (z : Int) : ℚ :=
  if 0 ≤ z then ((2 ^ z.toNat : ℕ) : ℚ) else (1 : ℚ) / ((2 ^ (-z).toNat : ℕ) : ℚ)

/-- Round a rational to `prec` significant bits, round-to-nearest with ties
to even: the rounding `math/big.Float` applies to every operation result at
a fixed precision (the program uses `precision = 128`).  The exponent range
of `big.Float` (±2^31) is never approached by this program, so exponents are
unbounded here. -/
def fround (prec : Nat) (q : ℚ) : ℚ :=
  if q = 0 then 0 else
  let n := q.num.natAbs
  let d := q.den
  let e0 : Int := (bitlen n : Int) - (bitlen d : Int)
  -- e := ⌊log2 (n/d)⌋; e0 is either e or e+1, decided by an exact comparison
  let ge : Bool := if 0 ≤ e0 then decide (d * 2 ^ e0.toNat ≤ n)
                   else decide (d ≤ n * 2 ^ (-e0).toNat)
  let e : Int := if ge then e0 else e0 - 1
  let s : Int := (prec : Int) - 1 - e
  let N := n * 2 ^ (max s 0).toNat
  let D := d * 2 ^ (max (-s) 0).toNat
  let m := N / D
  let r := N % D
  let m' := if 2 * r < D then m
            else if D < 2 * r then m + 1
            else if m % 2 = 0 then m else m + 1
  (if q.num < 0 then (-1 : ℚ) else 1) * (m' : ℚ) * qp2 (e - ((prec : Int) - 1))

/-- Floor integer square root, digit-by-digit recursion with explicit fuel
(the fuel `n` dominates the depth, which is half the bit length). -/
def isqrtAux : Nat → Nat → Nat
  | 0, _ => 0
  | fuel + 1, n =>
    if n = 0 then 0 else
    let r := isqrtAux fuel (n / 4) * 2
    if (r + 1) * (r + 1) ≤ n then r + 1 else r

/-- Floor integer square root. -/
def isqrt (n : Nat) : Nat := isqrtAux n n

/-- The IEEE-754 double result of Go's `math.Sqrt` on a nonnegative finite
input, i.e. √q correctly rounded to 53 significant bits, ties to even.  The
floor of √q at 53 bits is obtained from an exact integer square root and the
final rounding decision compares `q` with the square of the midpoint exactly
in ℚ. -/
def sqrt53 (q : ℚ) : ℚ :=
  if q ≤ 0 then 0 else
  let n := q.num.toNat
  let d := q.den
  let s : Nat := 64 + bitlen d
  let t := isqrt (n * 2 ^ (2 * s) / d)       -- t = ⌊2^s·√q⌋
  let bt := bitlen t
  let e : Int := (bt : Int) - 1 - (s : Int)  -- e = ⌊log2 √q⌋
  let m0 := t / 2 ^ (bt - 53)                -- m0 = ⌊2^(52-e)·√q⌋
  let low : ℚ := (m0 : ℚ) * qp2 (e - 52)
  let hi : ℚ := ((m0 + 1 : ℕ) : ℚ) * qp2 (e - 52)
  let mid : ℚ := ((2 * m0 + 1 : ℕ) : ℚ) * qp2 (e - 53)
  if mid * mid < q then hi
  else if q < mid * mid then low
  else if m0 % 2 = 0 then low else hi

/-- A `big.Float` value: a finite rational or one of the two infinities.
`big.Float` has no NaN (it panics instead) and this model collapses the two
signed zeros into `finite 0` (no computation in scope distinguishes them). -/
inductive GoFloat where
  | finite (q : ℚ)
  | posInf
  | negInf
deriving DecidableEq, Repr

/-- A run-time outcome other than a value: `goError` models Go `error`
values returned by the program, `panic` models run-time panics
(`big.ErrNaN`, division by zero on `big.Int`, nil dereference). -/
inductive RunErr where
  | goError (msg : String)
  | panic (msg : String)
deriving DecidableEq, Repr

/-- Truncation of a rational toward zero: the conversion performed by
`big.Float.Int` on a finite value. -/
def truncQ (q : ℚ) : Int :=
  if 0 ≤ q.num then ((q.num.natAbs / q.den : ℕ) : Int)
  else -((q.num.natAbs / q.den : ℕ) : Int)

/-- `x.Int(nil)`: a finite value truncates toward zero; an infinity yields a
nil `*big.Int` (modelled as `none`). -/
def toIntG : GoFloat → Option Int
  | .finite q => some (truncQ q)
  | _ => none

/-- `big.Float.IsInt`: infinities are not integers. -/
def isIntG : GoFloat → Bool
  | .finite q => q.den == 1
  | _ => false

/-- Negation (`big.Float.Neg`), which is exact. -/
def goNeg : GoFloat → GoFloat
  | .finite a => .finite (-a)
  | .posInf => .negInf
  | .negInf => .posInf

/-- `big.Float.Add` at precision 128: correctly rounded on finite operands;
`+Inf + -Inf` panics with `ErrNaN`. -/
def goAdd (x y : GoFloat) : Except RunErr GoFloat :=
  match x, y with
  | .finite a, .finite b => .ok (.finite (fround 128 (a + b)))
  | .posInf, .negInf => .error (.panic "ErrNaN: addition of infinities with opposite signs")
  | .negInf, .posInf => .error (.panic "ErrNaN: addition of infinities with opposite signs")
  | .posInf, _ => .ok .posInf
  | .negInf, _ => .ok .negInf
  | .finite _, .posInf => .ok .posInf
  | .finite _, .negInf => .ok .negInf

/-- `big.Float.Sub` at precision 128: `+Inf - +Inf` (and `-Inf - -Inf`)
panic with `ErrNaN`. -/
def goSub (x y : GoFloat) : Except RunErr GoFloat :=
  match x, y with
  | .finite a, .finite b => .ok (.finite (fround 128 (a - b)))
  | .posInf, .posInf => .error (.panic "ErrNaN: subtraction of infinities with equal signs")
  | .negInf, .negInf => .error (.panic "ErrNaN: subtraction of infinities with equal signs")
  | .posInf, _ => .ok .posInf
  | .negInf, _ => .ok .negInf
  | .finite _, .posInf => .ok .negInf
  | .finite _, .negInf => .ok .posInf

/-- `big.Float.Mul` at precision 128: `0 * ±Inf` panics with `ErrNaN`. -/
def goMul (x y : GoFloat) : Except RunErr GoFloat :=
  match x, y with
  | .finite a, .finite b => .ok (.finite (fround 128 (a * b)))
  | .finite a, .posInf =>
    if a = 0 then .error (.panic "ErrNaN: multiplication of zero with infinity")
    else .ok (if 0 < a then .posInf else .negInf)
  | .finite a, .negInf =>
    if a = 0 then .error (.panic "ErrNaN: multiplication of zero with infinity")
    else .ok (if 0 < a then .negInf else .posInf)
  | .posInf, .finite b =>
    if b = 0 then .error (.panic "ErrNaN: multiplication of zero with infinity")
    else .ok (if 0 < b then .posInf else .negInf)
  | .negInf, .finite b =>
    if b = 0 then .error (.panic "ErrNaN: multiplication of zero with infinity")
    else .ok (if 0 < b then .negInf else .posInf)
  | .posInf, .posInf => .ok .posInf
  | .posInf, .negInf => .ok .negInf
  | .negInf, .posInf => .ok .negInf
  | .negInf, .negInf => .ok .posInf

/-- `big.Float.Quo` at precision 128.  Division of a finite nonzero value by
zero yields an infinity (the model treats the zero divisor as `+0`, the only
zero producible here); `0/0` and `Inf/Inf` panic with `ErrNaN`; a finite
value divided by an infinity is zero. -/
def goQuo (x y : GoFloat) : Except RunErr GoFloat :=
  match x, y with
  | .finite a, .finite b =>
    if b = 0 then
      if a = 0 then .error (.panic "ErrNaN: division of zero by zero")
      else .ok (if 0 < a then .posInf else .negInf)
    else .ok (.finite (fround 128 (a / b)))
  | .posInf, .finite b => .ok (if 0 ≤ b then .posInf else .negInf)
  | .negInf, .finite b => .ok (if 0 ≤ b then .negInf else .posInf)
  | .finite _, .posInf => .ok (.finite 0)
  | .finite _, .negInf => .ok (.finite 0)
  | _, _ => .error (.panic "ErrNaN: division of infinity by infinity")

/-- Bitwise combination of two natural numbers, low bit first, with explicit
fuel (the fuel `a + b + 1` dominates the recursion depth, which is the larger
bit length). -/
def natOpAux (f : Bool → Bool → Bool) : Nat → Nat → Nat → Nat
  | 0, _, _ => 0
  | fuel + 1, a, b =>
    if a = 0 ∧ b = 0 then 0
    else natOpAux f fuel (a / 2) (b / 2) * 2 + (if f (a % 2 == 1) (b % 2 == 1) then 1 else 0)

/-- Bitwise combination of two natural numbers (`f false false` must be
`false`). -/
def natOp (f : Bool → Bool → Bool) (a b : Nat) : Nat := natOpAux f (a + b + 1) a b

/-- `big.Int.And`: bitwise AND with negative operands treated as infinite
two's complement, exactly as documented for `math/big` (`~x = -(x+1)`). -/
def intAnd (a b : Int) : Int :=
  if 0 ≤ a then
    if 0 ≤ b then (natOp and a.toNat b.toNat : ℕ)
    else (natOp (fun u v => u && !v) a.toNat (-(b + 1)).toNat : ℕ)
  else
    if 0 ≤ b then (natOp (fun u v => u && !v) b.toNat (-(a + 1)).toNat : ℕ)
    else -((natOp or (-(a + 1)).toNat (-(b + 1)).toNat : ℕ) + 1)

/-- `big.Int.Or`: bitwise OR with negative operands treated as infinite
two's complement. -/
def intOr (a b : Int) : Int :=
  if 0 ≤ a then
    if 0 ≤ b then (natOp or a.toNat b.toNat : ℕ)
    else -((natOp (fun u v => u && !v) (-(b + 1)).toNat a.toNat : ℕ) + 1)
  else
    if 0 ≤ b then -((natOp (fun u v => u && !v) (-(a + 1)).toNat b.toNat : ℕ) + 1)
    else -((natOp and (-(a + 1)).toNat (-(b + 1)).toNat : ℕ) + 1)

/-- The shift count `uint(q.Int64())` used by `operation2` for `<<` and
`>>`: the shift operand reduced to its low 64 bits (a negative or oversized
count wraps modulo 2^64, the defined-behavior reading of the conversion). -/
def shiftCount (q : Int) : Nat := (Int.emod q (2 ^ 64)).toNat

/-- `operation1` from `line_calc.go`: unary `+` (identity), `-`
(`big.Float.Neg`), `!` (convert to `big.Int`, `Not` — which is `-(x+1)` —
and `SetInt` back at precision 128, which rounds).  On an infinity the `!`
case dereferences the nil `*big.Int` returned by `Int(nil)` and panics. -/
def operation1 (op : String) (x : GoFloat) : Except RunErr GoFloat :=
  if op = "+" then .ok x
  else if op = "-" then .ok (goNeg x)
  else if op = "!" then
    match toIntG x with
    | some p => .ok (.finite (fround 128 ((-(p + 1) : ℤ) : ℚ)))
    | none => .error (.panic "runtime error: nil *big.Int dereference")
  else .error (.goError "invalid unary")

/-- `operation2` from `line_calc.go`.  `+ - * /` act on the `big.Float`
values directly; `% ^ << >> & |` first truncate both operands to `big.Int`
(`x.Int(nil)`), apply the exact integer operation (`Mod` is Euclidean;
`Exp` with a negative exponent and nil modulus yields 1; shifts use the
low-64-bit count; `And`/`Or` are two's complement), and `SetInt` the result
back into the precision-128 float, which rounds to 128 significant bits.
An infinite operand reaching an integer branch is the nil `*big.Int` case
and panics; `Mod` by zero panics. -/
def operation2 (op : String) (x y : GoFloat) : Except RunErr GoFloat :=
  if op = "+" then goAdd x y
  else if op = "-" then goSub x y
  else if op = "*" then goMul x y
  else if op = "/" then goQuo x y
  else if op = "%" ∨ op = "^" ∨ op = "<<" ∨ op = ">>" ∨ op = "&" ∨ op = "|" then
    match toIntG x, toIntG y with
    | some p, some q =>
      if op = "%" then
        if q = 0 then .error (.panic "division by zero")
        else .ok (.finite (fround 128 ((Int.emod p q : ℤ) : ℚ)))
      else if op = "^" then
        .ok (.finite (fround 128 (((if q < 0 then 1 else p ^ q.toNat) : ℤ) : ℚ)))
      else if op = "<<" then
        .ok (.finite (fround 128 ((p * 2 ^ shiftCount q : ℤ) : ℚ)))
      else if op = ">>" then
        .ok (.finite (fround 128 ((Int.fdiv p (2 ^ shiftCount q) : ℤ) : ℚ)))
      else if op = "&" then
        .ok (.finite (fround 128 ((intAnd p q : ℤ) : ℚ)))
      else
        .ok (.finite (fround 128 ((intOr p q : ℤ) : ℚ)))
    | _, _ => .error (.panic "runtime error: nil *big.Int dereference")
  else .error (.goError "invalid op")

/-- The `units` table of `line_calc.go`: unit-suffix character to signed
scale; a nonnegative entry multiplies, a negative entry `-d` divides by
`d`. -/
def unitsTable : List (String × Int) :=
  [("K", 1024), ("M", 1024 * 1024), ("G", 1024 * 1024 * 1024),
   ("T", 1024 * 1024 * 1024 * 1024),
   ("k", 1000), ("m", 1000 * 1000), ("g", 1000 * 1000 * 1000),
   ("t", 1000 * 1000 * 1000 * 1000),
   ("u", -(1000 * 1000)), ("n", -(1000 * 1000 * 1000))]

/-- The `tblIdent` identifier table: empty for the program's lifetime (the
source declares it and never inserts). -/
def tblIdent : List (String × GoFloat) := []

/-- The host transcendental functions `math.Sin`, `math.Cos`, `math.Tan`,
taken as parameters of the model: the program calls them on a finite double
and stores the finite double result.  (`math.Sqrt` is IEEE-correctly-rounded
and is modelled exactly by `sqrt53`.) -/
structure HostFns where
  sinF : ℚ → ℚ
  cosF : ℚ → ℚ
  tanF : ℚ → ℚ

/-- The shape of a call's `Fun` position: an identifier, a basic literal
(the unit-annotation form `12.(K)`), or anything else (rejected with
`invalid call`). -/
inductive CallFun where
  | ident (s : String)
  | lit (q : ℚ)
  | other

/-- The expression tree produced by Go's `parser.ParseExpr`, restricted to
the node kinds `evalExpr` dispatches on.  A literal node carries the exact
rational value of its text (the parse of the text by `fmt.Sscan` is the
external parser's concern); evaluation rounds it to precision 128. -/
inductive Expr where
  | lit (q : ℚ)
  | ident (s : String)
  | paren (e : Expr)
  | unary (op : String) (e : Expr)
  | binary (op : String) (l r : Expr)
  | call (f : CallFun) (args : List Expr)
  | assert (e : Expr) (ty : Expr)

/-- `evalFunc` from `line_calc.go`: dispatch on the function name over the
fixed table `sqrt`, `sin`, `cos`, `tan`; the result of the host double
function is stored via `SetFloat64` (exact at precision 128; a NaN argument
would make `SetFloat64` panic with `ErrNaN`).  Any other name yields the
`unknown call` error.  The named branches read `args[0]`, which panics on
an empty slice (unreachable: the caller checks for missing arguments). -/
def evalFunc (fs : HostFns) (fn : String) (args : List GoFloat) : Except RunErr GoFloat :=
  if fn = "sqrt" then
    match args with
    | [] => .error (.panic "runtime error: index out of range")
    | a :: _ =>
      match a with
      | .finite q => if q < 0 then .error (.panic "ErrNaN: SetFloat64(NaN)")
                     else .ok (.finite (sqrt53 q))
      | .posInf => .ok .posInf
      | .negInf => .error (.panic "ErrNaN: SetFloat64(NaN)")
  else if fn = "sin" then
    match args with
    | [] => .error (.panic "runtime error: index out of range")
    | a :: _ =>
      match a with
      | .finite q => .ok (.finite (fs.sinF q))
      | _ => .error (.panic "ErrNaN: SetFloat64(NaN)")
  else if fn = "cos" then
    match args with
    | [] => .error (.panic "runtime error: index out of range")
    | a :: _ =>
      match a with
      | .finite q => .ok (.finite (fs.cosF q))
      | _ => .error (.panic "ErrNaN: SetFloat64(NaN)")
  else if fn = "tan" then
    match args with
    | [] => .error (.panic "runtime error: index out of range")
    | a :: _ =>
      match a with
      | .finite q => .ok (.finite (fs.tanF q))
      | _ => .error (.panic "ErrNaN: SetFloat64(NaN)")
  else .error (.goError ("unknown call " ++ fn))

/-- `big.Float.Float64`: narrow a value to the nearest IEEE-754 double,
ties to even; overflow yields an infinity and tiny values round within the
subnormal range (granularity 2^-1074). -/
def roundHalfEvenInt (q : ℚ) : Int :=
  let f : Int := Int.fdiv q.num q.den
  let frac : ℚ := q - (f : ℚ)
  if frac < 1 / 2 then f
  else if 1 / 2 < frac then f + 1
  else if f % 2 = 0 then f else f + 1

/-- The double-narrowing `v.Float64()` applied to each call argument. -/
def toFloat64 : GoFloat → GoFloat
  | .posInf => .posInf
  | .negInf => .negInf
  | .finite q =>
    if q = 0 then .finite 0
    else
      let r := fround 53 q
      if qp2 1024 ≤ |r| then (if 0 < q then .posInf else .negInf)
      else if |q| < qp2 (-1022) then .finite ((roundHalfEvenInt (q * qp2 1074) : ℚ) * qp2 (-1074))
      else .finite r

mutual

/-- `evalExpr` from `line_calc.go`: recursive evaluation of a parse tree.
A literal is parsed at precision 128 with round-to-nearest-even; parentheses
pass through; identifiers are looked up in `tblIdent`; unary and binary
nodes evaluate operands fail-fast and dispatch to `operation1`/`operation2`;
calls go to `evalCallExpr`; a type-assert node is the unit-annotation form
and goes to `evalUnit`. -/
def evalExpr (fs : HostFns) (e : Expr) : Except RunErr GoFloat :=
  match e with
  | .lit q => .ok (.finite (fround 128 q))
  | .ident s =>
    match tblIdent.lookup s with
    | some v => .ok v
    | none => .error (.goError "unknown ident")
  | .paren e1 => evalExpr fs e1
  | .unary op e1 =>
    match evalExpr fs e1 with
    | .error err => .error err
    | .ok x => operation1 op x
  | .binary op l r =>
    match evalExpr fs l with
    | .error err => .error err
    | .ok x =>
      match evalExpr fs r with
      | .error err => .error err
      | .ok y => operation2 op x y
  | .call f args => evalCallExpr fs f args
  | .assert e1 ty => evalUnit fs e1 ty
termination_by sizeOf e

/-- `evalCallExpr` from `line_calc.go`: a call with no arguments is the
`no args` error; a call whose callee is a plain name evaluates every
argument eagerly (fail-fast), narrows each to a host double, and dispatches
to `evalFunc`; a call whose callee is a literal is the unit-annotation form
`12.(K)` and delegates to `evalUnit` with the first argument as the unit;
any other callee shape is `invalid call`. -/
def evalCallExpr (fs : HostFns) (f : CallFun) (args : List Expr) : Except RunErr GoFloat :=
  match args with
  | [] => .error (.goError "no args")
  | a0 :: rest =>
    match f with
    | .ident name =>
      match evalArgs fs (a0 :: rest) with
      | .error err => .error err
      | .ok vs => evalFunc fs name (vs.map toFloat64)
    | .lit q => evalUnit fs (.lit q) a0
    | .other => .error (.goError "invalid call")
termination_by sizeOf f + sizeOf args

/-- The argument-evaluation loop of `evalCallExpr`: left to right, stopping
at the first error. -/
def evalArgs (fs : HostFns) (args : List Expr) : Except RunErr (List GoFloat) :=
  match args with
  | [] => .ok []
  | e :: rest =>
    match evalExpr fs e with
    | .error err => .error err
    | .ok v =>
      match evalArgs fs rest with
      | .error err => .error err
      | .ok vs => .ok (v :: vs)
termination_by sizeOf args

/-- `evalUnit` from `line_calc.go`: the unit position must be an identifier
(else `invalid unit`); the operand is evaluated recursively; the unit name
is looked up in the `units` table (else `unknown unit`); a nonnegative
scale multiplies, a negative scale divides by its absolute value, both at
precision 128. -/
def evalUnit (fs : HostFns) (e : Expr) (ty : Expr) : Except RunErr GoFloat :=
  match ty with
  | .ident u =>
    match evalExpr fs e with
    | .error err => .error err
    | .ok x =>
      match unitsTable.lookup u with
      | none => .error (.goError ("unknown unit " ++ u))
      | some v =>
        if 0 ≤ v then goMul x (.finite ((v : ℤ) : ℚ))
        else goQuo x (.finite ((-v : ℤ) : ℚ))
  | _ => .error (.goError "invalid unit")
termination_by sizeOf e + sizeOf ty

end

/-- A concrete instance of the host function parameters, used to
instantiate universally quantified statements. -/
def fs0 : HostFns := ⟨fun _ => 0, fun _ => 0, fun _ => 0⟩

/-- The digit expansion the preprocessor substitutes for `pi`. -/
def piDigits : List Char := "3.14159265358979323846264338327950".data

/-- The `strings.NewReplacer("~", "!", "**", "^", "pi", …)` pass of
`preconv`: scan left to right, at each position try the patterns in the
order they were given, replace the first match and continue after it
(replacements are not rescanned). -/
def replacer : List Char → List Char
  | '~' :: rest => '!' :: replacer rest
  | '*' :: '*' :: rest => '^' :: replacer rest
  | 'p' :: 'i' :: rest => piDigits ++ replacer rest
  | c :: rest => c :: replacer rest
  | [] => []

/-- The character class `[)0-9a-fA-F ]` of the unit regexp built by
`preconv`. -/
def isClassChar (c : Char) : Bool :=
  c == ')' || (decide ('0' ≤ c) && decide (c ≤ '9')) ||
  (decide ('a' ≤ c) && decide (c ≤ 'f')) ||
  (decide ('A' ≤ c) && decide (c ≤ 'F')) || c == ' '

/-- The unit alternation of the regexp: the keys of the `units` map.  All
alternatives are distinct single characters, so the map's random iteration
order is irrelevant to matching. -/
def isUnitChar (c : Char) : Bool :=
  ['K', 'M', 'G', 'T', 'k', 'm', 'g', 't', 'u', 'n'].contains c

/-- The `re.ReplaceAllString(s, "$1.($2)")` pass of `preconv` for the
regexp `([)0-9a-fA-F ])(K|M|G|T|k|m|g|t|u|n)`: leftmost non-overlapping
two-character matches, each rewritten to `$1.($2)`. -/
def unitsRewrite : List Char → List Char
  | c1 :: c2 :: rest =>
    if isClassChar c1 && isUnitChar c2 then
      c1 :: '.' :: '(' :: c2 :: ')' :: unitsRewrite rest
    else c1 :: unitsRewrite (c2 :: rest)
  | l => l

/-- `preconv` from `line_calc.go`: the literal-substring replacer followed
by the unit-suffix regexp rewrite. -/
def preconv (l : List Char) : List Char := unitsRewrite (replacer l)

/-- `separater` from `line_calc.go`, on the character list of the digit
string.  The Go loop walks the input right to left (index `i` counted from
the right), appending the separator after the current character when
`i > 0`, `i` is a multiple of `n` and the character is not the sign `'-'`,
and prepends each block to the result.  `sepRev` consumes the reversed
input and produces the blocks in original order. -/
def sepRev (sep : Char) (n : Nat) : List Char → Nat → List Char
  | [], _ => []
  | c :: rest, i =>
    sepRev sep n rest (i + 1) ++
      (if 0 < i ∧ i % n = 0 ∧ c ≠ '-' then [c, sep] else [c])

/-- `separater` entry point (Go signature: `separater(num, sep string,
n int) string`; every call site passes a single-character separator). -/
def separater (num : List Char) (sep : Char) (n : Nat) : List Char :=
  sepRev sep n num.reverse 0

/-- `big.Int.Text(base)`: minus sign for negatives followed by the digits
of the absolute value (lowercase letters above 9), as produced by
`Nat.toDigits`. -/
def intText (base : Nat) (v : Int) : List Char :=
  (if v < 0 then ['-'] else []) ++ Nat.toDigits base v.natAbs

/-- The integer branch of `answer` from `line_calc.go`: the grouped decimal
of `v` (separator `","` every 3), then the hex and binary strings.  A
negative `v` whose bit length fits in 32 (resp. 64) bits is replaced by
`v + 2^32` (resp. `v + 2^64`), its unsigned two's-complement equivalent;
a wider negative keeps its absolute value and a literal `"-"` prefix.  Hex
digits are grouped by 4 and binary digits by 8, with `"_"`. -/
def intAnswer (v : Int) : List String :=
  let dec := String.mk (separater (intText 10 v) ',' 3)
  let mw : String × Nat :=
    if v < 0 then
      if bitlen v.natAbs ≤ 32 then ("", (v + 2 ^ 32).toNat)
      else if bitlen v.natAbs ≤ 64 then ("", (v + 2 ^ 64).toNat)
      else ("-", v.natAbs)
    else ("", v.toNat)
  [dec,
   mw.1 ++ "0x" ++ String.mk (separater (Nat.toDigits 16 mw.2) '_' 4),
   mw.1 ++ "0b" ++ String.mk (separater (Nat.toDigits 2 mw.2) '_' 8)]

/-- The formatting stage of `answer` from `line_calc.go` (the part after
evaluation): an exact integer (`ans.IsInt()`) whose bit length is at most
`showmaxbits = 300` gets the three-string display `intAnswer`; every other
value is rendered as the single string `fmt.Sprint(ans)` — the library's
default decimal form, taken as the parameter `sprint`.  (`v := ans.Int(nil)`
is computed first; for an infinity `IsInt` is false and `v`, a nil pointer,
is never used.) -/
def answerFormat (sprint : GoFloat → String) (x : GoFloat) : List String :=
  match x with
  | .finite q =>
    let v := truncQ q
    if q.den = 1 ∧ bitlen v.natAbs ≤ 300 then intAnswer v else [sprint x]
  | .posInf => [sprint x]
  | .negInf => [sprint x]

set_option maxRecDepth 40000

theorem truncQ_intCast (v : Int) : truncQ ((v : ℤ) : ℚ) = v := by
  unfold truncQ
  rcases le_or_lt 0 v with h | h
  · rw [if_pos]
    · simp [Rat.num_intCast, Rat.den_intCast, Int.natAbs_of_nonneg h]
    · simpa [Rat.num_intCast] using h
  · rw [if_neg]
    · simp only [Rat.num_intCast, Rat.den_intCast, Nat.div_one]
      omega
    · simp only [Rat.num_intCast]
      omega

theorem evalLit (fs : HostFns) (q : ℚ) :
    evalExpr fs (.lit q) = .ok (.finite (fround 128 q)) := by
  simp [evalExpr]

theorem evalUnitLit (fs : HostFns) (q : ℚ) (u : String) (v : ℤ)
    (hl : unitsTable.lookup u = some v) :
    evalExpr fs (.call (.lit q) [.ident u]) =
      if 0 ≤ v then goMul (.finite (fround 128 q)) (.finite ((v : ℤ) : ℚ))
      else goQuo (.finite (fround 128 q)) (.finite ((-v : ℤ) : ℚ)) := by
  simp [evalExpr, evalCallExpr, evalUnit, hl]

theorem evalBinLit (fs : HostFns) (op : String) (a b : ℚ) :
    evalExpr fs (.binary op (.lit a) (.lit b)) =
      operation2 op (.finite (fround 128 a)) (.finite (fround 128 b)) := by
  simp [evalExpr]

theorem op2mul (x y : GoFloat) : operation2 "*" x y = goMul x y := by
  simp [operation2]

theorem op2quo (x y : GoFloat) : operation2 "/" x y = goQuo x y := by
  simp [operation2]

/-- C1: for every supported unit suffix with table magnitude `m ≥ 0` and
every literal value `q`, evaluating the parsed form of `"N<suffix>"` (the
call node `N.(suffix)` that `preconv` produces) yields the same value as
evaluating `N * m`; for the negative-magnitude suffixes `u` and `n`
(magnitudes `-10^6` and `-10^9`) it yields the same value as `N / 10^6`
resp. `N / 10^9`. -/
theorem claim1_unit_suffix_scaling (fs : HostFns) (q : ℚ) :
    evalExpr fs (.call (.lit q) [.ident "K"])
      = evalExpr fs (.binary "*" (.lit q) (.lit 1024)) ∧
    evalExpr fs (.call (.lit q) [.ident "M"])
      = evalExpr fs (.binary "*" (.lit q) (.lit 1048576)) ∧
    evalExpr fs (.call (.lit q) [.ident "G"])
      = evalExpr fs (.binary "*" (.lit q) (.lit 1073741824)) ∧
    evalExpr fs (.call (.lit q) [.ident "T"])
      = evalExpr fs (.binary "*" (.lit q) (.lit 1099511627776)) ∧
    evalExpr fs (.call (.lit q) [.ident "k"])
      = evalExpr fs (.binary "*" (.lit q) (.lit 1000)) ∧
    evalExpr fs (.call (.lit q) [.ident "m"])
      = evalExpr fs (.binary "*" (.lit q) (.lit 1000000)) ∧
    evalExpr fs (.call (.lit q) [.ident "g"])
      = evalExpr fs (.binary "*" (.lit q) (.lit 1000000000)) ∧
    evalExpr fs (.call (.lit q) [.ident "t"])
      = evalExpr fs (.binary "*" (.lit q) (.lit 1000000000000)) ∧
    evalExpr fs (.call (.lit q) [.ident "u"])
      = evalExpr fs (.binary "/" (.lit q) (.lit 1000000)) ∧
    evalExpr fs (.call (.lit q) [.ident "n"])
      = evalExpr fs (.binary "/" (.lit q) (.lit 1000000000)) := by
  refine ⟨?_, ?_, ?_, ?_, ?_, ?_, ?_, ?_, ?_, ?_⟩
  · rw [evalUnitLit fs q "K" 1024 (by decide), evalBinLit, op2mul, if_pos (by decide)]
    exact congrArg (goMul (.finite (fround 128 q))) (congrArg GoFloat.finite (by decide))
  · rw [evalUnitLit fs q "M" 1048576 (by decide), evalBinLit, op2mul, if_pos (by decide)]
    exact congrArg (goMul (.finite (fround 128 q))) (congrArg GoFloat.finite (by decide))
  · rw [evalUnitLit fs q "G" 1073741824 (by decide), evalBinLit, op2mul, if_pos (by decide)]
    exact congrArg (goMul (.finite (fround 128 q))) (congrArg GoFloat.finite (by decide))
  · rw [evalUnitLit fs q "T" 1099511627776 (by decide), evalBinLit, op2mul,
      if_pos (by decide)]
    exact congrArg (goMul (.finite (fround 128 q))) (congrArg GoFloat.finite (by decide))
  · rw [evalUnitLit fs q "k" 1000 (by decide), evalBinLit, op2mul, if_pos (by decide)]
    exact congrArg (goMul (.finite (fround 128 q))) (congrArg GoFloat.finite (by decide))
  · rw [evalUnitLit fs q "m" 1000000 (by decide), evalBinLit, op2mul, if_pos (by decide)]
    exact congrArg (goMul (.finite (fround 128 q))) (congrArg GoFloat.finite (by decide))
  · rw [evalUnitLit fs q "g" 1000000000 (by decide), evalBinLit, op2mul, if_pos (by decide)]
    exact congrArg (goMul (.finite (fround 128 q))) (congrArg GoFloat.finite (by decide))
  · rw [evalUnitLit fs q "t" 1000000000000 (by decide), evalBinLit, op2mul,
      if_pos (by decide)]
    exact congrArg (goMul (.finite (fround 128 q))) (congrArg GoFloat.finite (by decide))
  · rw [evalUnitLit fs q "u" (-1000000) (by decide), evalBinLit, op2quo, if_neg (by decide)]
    exact congrArg (goQuo (.finite (fround 128 q))) (congrArg GoFloat.finite (by decide))
  · rw [evalUnitLit fs q "n" (-1000000000) (by decide), evalBinLit, op2quo,
      if_neg (by decide)]
    exact congrArg (goQuo (.finite (fround 128 q))) (congrArg GoFloat.finite (by decide))

/-- C3 counterexample: evaluating `5/0` does NOT return an evaluation
error: `big.Float.Quo` of a nonzero value by zero yields `+Inf`, which the
program returns as a value. -/
theorem claim3_counterexample :
    evalExpr fs0 (.binary "/" (.lit 5) (.lit 0)) = .ok .posInf := by
  rw [evalBinLit, op2quo]
  have h5 : fround 128 (5 : ℚ) = 5 := by decide
  have h0 : fround 128 (0 : ℚ) = 0 := by decide
  rw [h5, h0]
  decide

/-- C3 (amended): dividing a nonzero finite value by exact zero yields the
correspondingly signed infinity and no error; dividing zero by zero panics
with `ErrNaN` (the `big.Float` division contract).  No `DivisionByZero`
error value exists in the program. -/
theorem claim3_division_by_zero (fs : HostFns) (x : ℚ) (hx : x ≠ 0)
    (hfix : fround 128 x = x) :
    evalExpr fs (.binary "/" (.lit x) (.lit 0))
        = .ok (if 0 < x then .posInf else .negInf) ∧
    evalExpr fs (.binary "/" (.lit 0) (.lit 0))
        = .error (.panic "ErrNaN: division of zero by zero") := by
  have h0 : fround 128 (0 : ℚ) = 0 := by decide
  constructor
  · rw [evalBinLit, op2quo, hfix, h0]
    simp [goQuo, hx]
  · rw [evalBinLit, op2quo, h0]
    decide

/-- C3 witness: `5/0` is `+Inf` and `0/0` panics. -/
theorem claim3_witness :
    evalExpr fs0 (.binary "/" (.lit 5) (.lit 0)) = .ok (if 0 < (5 : ℚ) then .posInf else .negInf) ∧
    evalExpr fs0 (.binary "/" (.lit 0) (.lit 0))
        = .error (.panic "ErrNaN: division of zero by zero") :=
  claim3_division_by_zero fs0 5 (by decide) (by decide)

/-- C4: the unit-suffix rewrite of `preconv` fires whenever a unit letter
follows any character of the class `[)0-9a-fA-F ]`; in the identifier
`tan` the letter `n` follows the hex-letter `a`, so `preconv` rewrites
`tan(1)` to `ta.(n)(1)` instead of leaving the identifier unchanged —
making the `tan` entry of `evalFunc` unreachable — while `1K` is rewritten
as intended and `sin(1)` happens to survive. -/
theorem claim4_preconv_rewrites_tan :
    preconv "tan(1)".data = "ta.(n)(1)".data ∧
    preconv "tan(1)".data ≠ "tan(1)".data ∧
    preconv "1K".data = "1.(K)".data ∧
    preconv "sin(1)".data = "sin(1)".data := by
  decide

/-- C10: for every integer base and negative integer exponent the `^`
operator returns 1 (`big.Int.Exp` with a negative exponent and nil modulus
yields 1), and the preprocessor maps the `**` alias to `^`. -/
theorem claim10_negative_exponent (a b : ℤ) (hb : b < 0) :
    operation2 "^" (.finite (a : ℚ)) (.finite (b : ℚ)) = .ok (.finite 1) ∧
    preconv "2 ** -3".data = "2 ^ -3".data := by
  constructor
  · simp only [operation2, toIntG, truncQ_intCast]
    norm_num
    rw [if_pos hb]
    have h1 : fround 128 (1 : ℚ) = 1 := by decide
    simp [h1]
  · decide

/-- C5 counterexample: with the integer operands `2^199` and `1` (both
exactly representable at precision 128), `2^199 | 1` evaluates to `2^199`,
not to the exact integer result `2^199 + 1`: the final `SetInt` rounds the
200-bit exact result to 128 significant bits, so the operators are not
bit-for-bit in general. -/
theorem claim5_counterexample :
    operation2 "|" (.finite ((2 : ℚ) ^ 199)) (.finite 1) = .ok (.finite ((2 : ℚ) ^ 199)) ∧
    intOr ((2 : ℤ) ^ 199) 1 = 2 ^ 199 + 1 ∧
    ((2 : ℚ) ^ 199) ≠ (((2 : ℤ) ^ 199 + 1 : ℤ) : ℚ) := by
  decide

/-- C5 (amended): `%`, `&` and `|` truncate both operands toward zero to
integers, apply the exact arbitrary-precision integer operation (`Mod` is
Euclidean), and return the result rounded to the 128-bit working precision;
the result is exact (bit-for-bit) whenever the exact integer result is
representable at 128 significant bits, stated here as the rounding fixing
it. -/
theorem claim5_integer_operators (x y : ℚ)
    (hy : truncQ y ≠ 0)
    (hm : fround 128 ((Int.emod (truncQ x) (truncQ y) : ℤ) : ℚ)
        = ((Int.emod (truncQ x) (truncQ y) : ℤ) : ℚ))
    (ha : fround 128 ((intAnd (truncQ x) (truncQ y) : ℤ) : ℚ)
        = ((intAnd (truncQ x) (truncQ y) : ℤ) : ℚ))
    (ho : fround 128 ((intOr (truncQ x) (truncQ y) : ℤ) : ℚ)
        = ((intOr (truncQ x) (truncQ y) : ℤ) : ℚ)) :
    operation2 "%" (.finite x) (.finite y)
        = .ok (.finite ((Int.emod (truncQ x) (truncQ y) : ℤ) : ℚ)) ∧
    operation2 "&" (.finite x) (.finite y)
        = .ok (.finite ((intAnd (truncQ x) (truncQ y) : ℤ) : ℚ)) ∧
    operation2 "|" (.finite x) (.finite y)
        = .ok (.finite ((intOr (truncQ x) (truncQ y) : ℤ) : ℚ)) := by
  refine ⟨?_, ?_, ?_⟩
  · simp only [operation2, toIntG]
    simp [hy]
    rw [hm]
  · simp only [operation2, toIntG]
    simp
    rw [ha]
  · simp only [operation2, toIntG]
    simp
    rw [ho]

/-- C5 witness: `7.5 % 3 = 1`, `7.5 & 3 = 3`, `7.5 | 3 = 7` (the fractional
operand truncates to 7). -/
theorem claim5_witness :
    operation2 "%" (.finite (15 / 2 : ℚ)) (.finite (3 : ℚ))
        = .ok (.finite ((Int.emod (truncQ (15 / 2 : ℚ)) (truncQ (3 : ℚ)) : ℤ) : ℚ)) ∧
    operation2 "&" (.finite (15 / 2 : ℚ)) (.finite (3 : ℚ))
        = .ok (.finite ((intAnd (truncQ (15 / 2 : ℚ)) (truncQ (3 : ℚ)) : ℤ) : ℚ)) ∧
    operation2 "|" (.finite (15 / 2 : ℚ)) (.finite (3 : ℚ))
        = .ok (.finite ((intOr (truncQ (15 / 2 : ℚ)) (truncQ (3 : ℚ)) : ℤ) : ℚ)) :=
  claim5_integer_operators (15 / 2) 3 (by decide) (by decide) (by decide) (by decide)

/-- C9 counterexample: at `N = 2^128` the `!` operator is not an involution
and a single application is not `-(N+1)`: `SetInt` rounds `-(2^128+1)` (129
significant bits) to `-2^128`, and the second application then returns
`2^128 - 1 ≠ N`. -/
theorem claim9_counterexample :
    operation1 "!" (.finite ((2 : ℚ) ^ 128)) = .ok (.finite (-((2 : ℚ) ^ 128))) ∧
    (-((2 : ℚ) ^ 128)) ≠ ((-((2 : ℤ) ^ 128 + 1) : ℤ) : ℚ) ∧
    operation1 "!" (.finite (-((2 : ℚ) ^ 128))) = .ok (.finite ((2 : ℚ) ^ 128 - 1)) ∧
    ((2 : ℚ) ^ 128 - 1) ≠ (2 : ℚ) ^ 128 := by
  decide

/-- C9 (amended): for an integer operand `N` such that `-(N+1)` (and `N`
itself) is exactly representable at the 128-bit working precision, `!N`
returns `-(N+1)` (ones' complement over the unbounded integers) and a
second application returns `N`, so `!` is an involution on such values. -/
theorem claim9_complement_involution (N : ℤ)
    (h1 : fround 128 ((N : ℤ) : ℚ) = ((N : ℤ) : ℚ))
    (h2 : fround 128 ((-(N + 1) : ℤ) : ℚ) = ((-(N + 1) : ℤ) : ℚ)) :
    operation1 "!" (.finite ((N : ℤ) : ℚ)) = .ok (.finite ((-(N + 1) : ℤ) : ℚ)) ∧
    operation1 "!" (.finite ((-(N + 1) : ℤ) : ℚ)) = .ok (.finite ((N : ℤ) : ℚ)) := by
  constructor
  · simp only [operation1, toIntG, truncQ_intCast, reduceIte]
    rw [h2]
    simp
  · simp only [operation1, toIntG, truncQ_intCast, reduceIte]
    have hne : (-(-(N + 1) + 1) : ℤ) = N := by ring
    rw [hne, h1]
    simp

/-- C9 witness: `!5 = -6` and `!(-6) = 5`. -/
theorem claim9_witness :
    operation1 "!" (.finite ((5 : ℤ) : ℚ)) = .ok (.finite ((-(5 + 1) : ℤ) : ℚ)) ∧
    operation1 "!" (.finite ((-(5 + 1) : ℤ) : ℚ)) = .ok (.finite ((5 : ℤ) : ℚ)) :=
  claim9_complement_involution 5 (by decide) (by decide)

/-- C10 witness: `2 ^ -3` evaluates to 1. -/
theorem claim10_witness :
    operation2 "^" (.finite ((2 : ℤ) : ℚ)) (.finite ((-3 : ℤ) : ℚ)) = .ok (.finite 1) :=
  (claim10_negative_exponent 2 (-3) (by decide)).1

theorem answerFormat_intCast (sprint : GoFloat → String) (v : ℤ)
    (hcap : bitlen v.natAbs ≤ 300) :
    answerFormat sprint (.finite ((v : ℤ) : ℚ)) = intAnswer v := by
  simp [answerFormat, Rat.den_intCast, truncQ_intCast, hcap]

/-- C2 counterexample: the hex display string of `eval("-1")` is the
grouped `"0xffff_ffff"`, not the literal `"0xffffffff"` the claim names
(hex digits are grouped every 4 with underscores); the binary branch is 32
one-bits grouped every 8 as claimed. -/
theorem claim2_counterexample :
    answerFormat (fun _ => "") (.finite (-1)) =
      ["-1", "0xffff_ffff", "0b11111111_11111111_11111111_11111111"] ∧
    "0xffff_ffff" ≠ "0xffffffff" := by
  decide

/-- C2 (amended): for a negative exact-integer result within the 300-bit
display cap, the hex and binary strings render the digits of the unsigned
32-bit two's-complement equivalent `v + 2^32` when the bit length fits 32
bits, of `v + 2^64` when it fits 64 but not 32, and of the absolute value
prefixed by a literal minus sign when wider than 64 bits; hex digits are
grouped every 4 and binary digits every 8 with underscores (so `eval("-1")`
shows `"0xffff_ffff"` and 32 grouped one-bits). -/
theorem claim2_twos_complement (sprint : GoFloat → String) (v : ℤ) (hneg : v < 0)
    (hcap : bitlen v.natAbs ≤ 300) :
    (bitlen v.natAbs ≤ 32 →
      answerFormat sprint (.finite ((v : ℤ) : ℚ)) =
        [String.mk (separater (intText 10 v) ',' 3),
         "0x" ++ String.mk (separater (Nat.toDigits 16 (v + 2 ^ 32).toNat) '_' 4),
         "0b" ++ String.mk (separater (Nat.toDigits 2 (v + 2 ^ 32).toNat) '_' 8)]) ∧
    (32 < bitlen v.natAbs → bitlen v.natAbs ≤ 64 →
      answerFormat sprint (.finite ((v : ℤ) : ℚ)) =
        [String.mk (separater (intText 10 v) ',' 3),
         "0x" ++ String.mk (separater (Nat.toDigits 16 (v + 2 ^ 64).toNat) '_' 4),
         "0b" ++ String.mk (separater (Nat.toDigits 2 (v + 2 ^ 64).toNat) '_' 8)]) ∧
    (64 < bitlen v.natAbs →
      answerFormat sprint (.finite ((v : ℤ) : ℚ)) =
        [String.mk (separater (intText 10 v) ',' 3),
         "-0x" ++ String.mk (separater (Nat.toDigits 16 v.natAbs) '_' 4),
         "-0b" ++ String.mk (separater (Nat.toDigits 2 v.natAbs) '_' 8)]) := by
  rw [answerFormat_intCast sprint v hcap]
  refine ⟨?_, ?_, ?_⟩
  · intro h32
    simp only [intAnswer, if_pos hneg, if_pos h32]
    rfl
  · intro hgt32 h64
    simp only [intAnswer, if_pos hneg, if_neg (by omega : ¬ bitlen v.natAbs ≤ 32),
      if_pos h64]
    rfl
  · intro hgt64
    simp only [intAnswer, if_pos hneg, if_neg (by omega : ¬ bitlen v.natAbs ≤ 32),
      if_neg (by omega : ¬ bitlen v.natAbs ≤ 64)]
    rfl

/-- C2 witness: `-5` fits 32 bits and displays as `0xffff_fffb`. -/
theorem claim2_witness :
    ((-5 : ℤ) < 0) ∧
    answerFormat (fun _ => "") (.finite ((-5 : ℤ) : ℚ)) =
      [String.mk (separater (intText 10 (-5)) ',' 3),
       "0x" ++ String.mk (separater (Nat.toDigits 16 ((-5) + 2 ^ 32).toNat) '_' 4),
       "0b" ++ String.mk (separater (Nat.toDigits 2 ((-5) + 2 ^ 32).toNat) '_' 8)] :=
  ⟨by decide,
   (claim2_twos_complement (fun _ => "") (-5) (by decide) (by decide)).1 (by decide)⟩

/-- C6: the formatter returns the three-string display exactly when the
value is an exact integer (`IsInt`) whose bit length is at most
`showmaxbits = 300` — in that case the strings are `intAnswer` (grouped
decimal, grouped hex, grouped binary) — and every other value (non-integer,
too-wide integer, or infinity) is rendered as the single string produced by
the library's default decimal formatting `sprint`. -/
theorem claim6_format_branches (sprint : GoFloat → String) :
    (∀ q : ℚ, isIntG (.finite q) = true → bitlen (truncQ q).natAbs ≤ 300 →
        answerFormat sprint (.finite q) = intAnswer (truncQ q) ∧
        (answerFormat sprint (.finite q)).length = 3) ∧
    (∀ q : ℚ, isIntG (.finite q) = false ∨ 300 < bitlen (truncQ q).natAbs →
        answerFormat sprint (.finite q) = [sprint (.finite q)]) ∧
    answerFormat sprint .posInf = [sprint .posInf] ∧
    answerFormat sprint .negInf = [sprint .negInf] := by
  refine ⟨?_, ?_, rfl, rfl⟩
  · intro q hint hcap
    have hden : q.den = 1 := by simpa [isIntG] using hint
    refine ⟨by simp [answerFormat, hden, hcap], ?_⟩
    simp [answerFormat, hden, hcap, intAnswer]
  · intro q h
    rcases h with h | h
    · have hden : q.den ≠ 1 := by simpa [isIntG] using h
      simp [answerFormat, hden]
    · have hc : ¬ (q.den = 1 ∧ bitlen (truncQ q).natAbs ≤ 300) := by
        rintro ⟨-, hc⟩; omega
      simp [answerFormat, hc]

/-- C6 witness: `5` gets the three-string display, `1/2` falls to the
single float string. -/
theorem claim6_witness :
    answerFormat (fun _ => "F") (.finite (5 : ℚ)) = intAnswer (truncQ 5) ∧
    answerFormat (fun _ => "F") (.finite (1 / 2 : ℚ)) = ["F"] :=
  ⟨((claim6_format_branches (fun _ => "F")).1 5 (by decide) (by decide)).1,
   (claim6_format_branches (fun _ => "F")).2.1 (1 / 2) (Or.inl (by decide))⟩

theorem sepRev_filter (sep : Char) (n : ℕ) :
    ∀ (l : List Char) (i : ℕ), sep ∉ l →
      (sepRev sep n l i).filter (fun c => c != sep) = l.reverse := by
  intro l
  induction l with
  | nil => intro i _; simp [sepRev]
  | cons c rest ih =>
    intro i hmem
    have hc : (c != sep) = true := by
      simp only [List.mem_cons] at hmem
      simp [bne_iff_ne]
      exact fun hcs => hmem (Or.inl hcs.symm)
    have hrest : sep ∉ rest := fun hr => hmem (List.mem_cons_of_mem _ hr)
    simp only [sepRev, List.filter_append, ih (i + 1) hrest, List.reverse_cons]
    congr 1
    split
    · simp [hc]
    · simp [hc]

theorem sepRev_concat (sep : Char) (n : ℕ) (c : Char) :
    ∀ (l : List Char) (i : ℕ),
      sepRev sep n (l ++ [c]) i =
        (if 0 < i + l.length ∧ (i + l.length) % n = 0 ∧ c ≠ '-' then [c, sep] else [c])
          ++ sepRev sep n l i := by
  intro l
  induction l with
  | nil => intro i; simp [sepRev]
  | cons d rest ih =>
    intro i
    simp only [List.cons_append, sepRev, List.append_eq, ih (i + 1), List.length_cons,
      List.append_assoc]
    have harith : i + 1 + rest.length = i + (rest.length + 1) := by omega
    rw [harith]

/-- C7: grouping round-trip and sign handling of `separater`: for a digit
string not containing the separator, removing every separator character
from the grouped output reproduces the input exactly; a leading `'-'` sign
passes through with no separator attached to it (the output is `'-'`
followed by the grouping of the remaining digits, whose first character is
the first digit). -/
theorem claim7_separater_grouping (sep : Char) (n : ℕ) (num ds : List Char) :
    (0 < n → sep ∉ num →
      (separater num sep n).filter (fun c => c != sep) = num) ∧
    separater ('-' :: ds) sep n = '-' :: separater ds sep n ∧
    (ds ≠ [] → (separater ds sep n).head? = ds.head?) := by
  refine ⟨?_, ?_, ?_⟩
  · intro _ hmem
    unfold separater
    rw [sepRev_filter sep n num.reverse 0 (by simpa using hmem), List.reverse_reverse]
  · unfold separater
    rw [List.reverse_cons, sepRev_concat]
    simp
  · intro hne
    obtain ⟨d, t, rfl⟩ := List.exists_cons_of_ne_nil hne
    unfold separater
    rw [List.reverse_cons, sepRev_concat]
    split <;> simp

/-- C7 witness: `"12345"` groups to `"12,345"` and strips back; `"-1234"`
keeps its sign attached. -/
theorem claim7_witness :
    (separater "12345".data ',' 3).filter (fun c => c != ',') = "12345".data ∧
    separater ('-' :: "1234".data) ',' 3 = '-' :: separater "1234".data ',' 3 ∧
    (separater "123".data ',' 3).head? = "123".data.head? :=
  ⟨(claim7_separater_grouping ',' 3 "12345".data "123".data).1 (by decide) (by decide),
   (claim7_separater_grouping ',' 3 "12345".data "1234".data).2.1,
   (claim7_separater_grouping ',' 3 "12345".data "123".data).2.2 (by decide)⟩

theorem evalCallIdent (fs : HostFns) (name : String) (a0 : Expr) (rest : List Expr) :
    evalExpr fs (.call (.ident name) (a0 :: rest)) =
      match evalArgs fs (a0 :: rest) with
      | .error err => .error err
      | .ok vs => evalFunc fs name (vs.map toFloat64) := by
  simp [evalExpr, evalCallExpr]

theorem evalArgs_append (fs : HostFns) (l1 l2 : List Expr) :
    evalArgs fs (l1 ++ l2) =
      match evalArgs fs l1 with
      | .error err => .error err
      | .ok vs =>
        match evalArgs fs l2 with
        | .error err => .error err
        | .ok ws => .ok (vs ++ ws) := by
  induction l1 with
  | nil =>
    simp only [List.nil_append, evalArgs]
    cases h : evalArgs fs l2 <;> simp
  | cons e rest ih =>
    simp only [List.cons_append, evalArgs, ih]
    cases h1 : evalExpr fs e <;> simp
    cases h2 : evalArgs fs rest <;> simp
    cases h3 : evalArgs fs l2 <;> simp

/-- C8: a call with a plain-name callee evaluates every argument eagerly
(fail-fast: the first failing argument's error is returned, whatever the
name), narrows every argument — in particular the first — to a host double
via `Float64`, dispatches on the fixed table `sqrt`/`sin`/`cos`/`tan`
(the last three being the parametrised host double functions), and fails
with the `unknown call` error for any other name; `sqrt(4)` evaluates to
the exact integer 2, whose decimal display branch is `"2"`. -/
theorem claim8_call_dispatch (fs : HostFns) :
    (∀ (name : String) (args : List GoFloat),
       name ≠ "sqrt" → name ≠ "sin" → name ≠ "cos" → name ≠ "tan" →
       evalFunc fs name args = .error (.goError ("unknown call " ++ name))) ∧
    (∀ (name : String) (pre : List Expr) (e : Expr) (post : List Expr)
       (vs : List GoFloat) (err : RunErr),
       evalArgs fs pre = .ok vs → evalExpr fs e = .error err →
       evalExpr fs (.call (.ident name) (pre ++ e :: post)) = .error err) ∧
    (∀ (name : String) (a0 : Expr) (rest : List Expr) (vs : List GoFloat),
       evalArgs fs (a0 :: rest) = .ok vs →
       evalExpr fs (.call (.ident name) (a0 :: rest)) = evalFunc fs name (vs.map toFloat64)) ∧
    evalExpr fs (.call (.ident "sqrt") [.lit 4]) = .ok (.finite 2) ∧
    (∀ sprint : GoFloat → String, answerFormat sprint (.finite 2) = ["2", "0x2", "0b10"]) := by
  refine ⟨?_, ?_, ?_, ?_, ?_⟩
  · intro name args h1 h2 h3 h4
    simp [evalFunc, h1, h2, h3, h4]
  · intro name pre e post vs err hpre herr
    cases pre with
    | nil =>
      rw [List.nil_append, evalCallIdent]
      simp [evalArgs, herr]
    | cons p pre' =>
      rw [List.cons_append, evalCallIdent, ← List.cons_append, evalArgs_append, hpre]
      simp [evalArgs, herr]
  · intro name a0 rest vs hargs
    rw [evalCallIdent, hargs]
  · rw [evalCallIdent]
    have h4 : fround 128 (4 : ℚ) = 4 := by decide
    simp only [evalArgs, evalLit, h4]
    have hf : toFloat64 (.finite 4) = .finite 4 := by decide
    have hs : sqrt53 (4 : ℚ) = 2 := by decide
    simp [evalFunc, hf, hs]
  · intro sprint
    rw [show ((2 : ℚ)) = ((2 : ℤ) : ℚ) by norm_num,
      answerFormat_intCast sprint 2 (by decide)]
    decide

/-- C8 witness: an unknown name errors, a failing argument propagates its
error, and `sqrt(4)` is exactly 2. -/
theorem claim8_witness :
    evalFunc fs0 "foo" [] = .error (.goError ("unknown call " ++ "foo")) ∧
    evalExpr fs0 (.call (.ident "sqrt") [.ident "nope"])
        = .error (.goError "unknown ident") ∧
    evalExpr fs0 (.call (.ident "sqrt") [.lit 4]) = .ok (.finite 2) :=
  ⟨(claim8_call_dispatch fs0).1 "foo" [] (by decide) (by decide) (by decide) (by decide),
   (claim8_call_dispatch fs0).2.1 "sqrt" [] (.ident "nope") [] [] (.goError "unknown ident")
     (by simp [evalArgs]) (by simp [evalExpr, tblIdent]),
   (claim8_call_dispatch fs0).2.2.2.1⟩

end LineCalc
